import Mathlib

/-!
# udevfw: the forwarding pipeline of `udevfw.c`

A shallow embedding of `udevfw.c` (binary protocol encoder, hand-off queue,
sender loop, start-up of `main`) and theorems about it.

Conventions of the embedding.

* A C string (`const char *`) is the list of its bytes before the
  terminating NUL; `strlen` is the length of that list.
* `unsigned int` is 32 bits wide and `unsigned long long` 64 bits wide; a
  value stored in an `unsigned int` is reduced modulo `2 ^ 32`.
* The `int` counters of `sendDeviceMessage` (`namelen`, `vallen`, `proplen`,
  `buflen`, `bufpos`) are natural numbers.  They only count bytes of the
  property blob, so they agree with the C `int` variables exactly as long as
  the blob is at most `INT_MAX` bytes long; beyond that the C code truncates
  `strlen` and overflows.  Every theorem about the blob therefore carries the
  hypothesis that the blob length is at most `INT_MAX`.  `realloc` is assumed
  to succeed; the bytes it adds are indeterminate and are given by a
  parameter `junk`.
* The host byte order is a parameter: the object representation of an
  `unsigned int` and the effect of `htonl` both depend on it.
* `MurmurHash2` comes from `MurmurHash2.h`, which is not part of `udevfw.c`;
  it is a parameter of everything that hashes.
-/

namespace Udevfw

/-! ## Machine-level helpers -/

/-- Byte order of the host the program is compiled for. -/
inductive ByteOrder where
  | littleEndian
  | bigEndian
  deriving DecidableEq

/-- The four bytes of a 32-bit value, most significant byte first. -/
def bytesBE (x : Nat) : List Nat :=
  [x / 16777216 % 256, x / 65536 % 256, x / 256 % 256, x % 256]

/-- The four bytes of a 32-bit value, least significant byte first. -/
def bytesLE (x : Nat) : List Nat :=
  [x % 256, x / 256 % 256, x / 65536 % 256, x / 16777216 % 256]

/-- Read four bytes as a big-endian (network order) 32-bit integer. -/
def readBE (bs : List Nat) : Nat :=
  bs.getD 0 0 * 16777216 + bs.getD 1 0 * 65536 + bs.getD 2 0 * 256 + bs.getD 3 0

/-- Read four bytes as a little-endian 32-bit integer. -/
def readLE (bs : List Nat) : Nat :=
  bs.getD 3 0 * 16777216 + bs.getD 2 0 * 65536 + bs.getD 1 0 * 256 + bs.getD 0 0

/-- Object representation of an `unsigned int` in host memory. -/
def storeU32 (bo : ByteOrder) (x : Nat) : List Nat :=
  match bo with
  | .littleEndian => bytesLE x
  | .bigEndian => bytesBE x

/-- Read an `unsigned int` from host memory. -/
def loadU32 (bo : ByteOrder) (bs : List Nat) : Nat :=
  match bo with
  | .littleEndian => readLE bs
  | .bigEndian => readBE bs

/-- Reversal of the four bytes of a 32-bit value. -/
def bswap32 (x : Nat) : Nat :=
  x % 256 * 16777216 + x / 256 % 256 * 65536 + x / 65536 % 256 * 256 + x / 16777216 % 256

/-- The libc `htonl`: host to network order of a `uint32_t` argument. -/
def htonl (bo : ByteOrder) (x : Nat) : Nat :=
  match bo with
  | .littleEndian => bswap32 (x % 4294967296)
  | .bigEndian => x % 4294967296

/-- The libc `strlen` on a C string given by its bytes before the NUL. -/
def strlen (s : List Nat) : Nat := s.length

/-- The libc `realloc`: keeps the old bytes and grows (or shrinks) the block to
`size` bytes; byte `i` of the added part is the indeterminate `junk i`. -/
def realloc (junk : Nat → Nat) (buf : List Nat) (size : Nat) : List Nat :=
  buf.take size ++ (List.range (size - buf.length)).map (fun i => junk (buf.length + i))

/-- The libc `memcpy (dst + pos, src, n)`: byte by byte. -/
def memcpy (dst : List Nat) (pos : Nat) (src : List Nat) : Nat → List Nat
  | 0 => dst
  | n + 1 => (memcpy dst pos src n).set (pos + n) (src.getD n 0)

/-! ## Data model -/

/-- The accessors of `struct udev_device` used by the program: subsystem and
device type (`none` for a NULL result), the tag list and the property list. -/
structure udev_device where
  subsystem : Option (List Nat)
  devtype : Option (List Nat)
  tags : List (List Nat)
  properties : List (List Nat × List Nat)
  deriving DecidableEq

/-- The C macro `UDEV_MONITOR_UDEV`. -/
def UDEV_MONITOR_UDEV : Nat := 2

/-- The C macro `UDEV_MONITOR_MAGIC`. -/
def UDEV_MONITOR_MAGIC : Nat := 0xFEEDCAFE

/-- The C `struct MessageHeader`; `pfx` is the member `char prefix[8]`. -/
structure MessageHeader where
  pfx : List Nat
  magic : Nat
  headerSize : Nat
  propertiesOffset : Nat
  propertiesLength : Nat
  filterSubsystemHash : Nat
  filterDeviceTypeHash : Nat
  filterTagBloomLow : Nat
  filterTagBloomHigh : Nat
  deriving DecidableEq

/-- The value of `sizeof(MessageHeader)`: eight chars and eight 4-byte fields. -/
def sizeofMessageHeader : Nat := 8 + 8 * 4

/-- Object representation of a `MessageHeader` in host memory. -/
def MessageHeader.bytes (bo : ByteOrder) (h : MessageHeader) : List Nat :=
  h.pfx ++ storeU32 bo h.magic ++ storeU32 bo h.headerSize
    ++ storeU32 bo h.propertiesOffset ++ storeU32 bo h.propertiesLength
    ++ storeU32 bo h.filterSubsystemHash ++ storeU32 bo h.filterDeviceTypeHash
    ++ storeU32 bo h.filterTagBloomLow ++ storeU32 bo h.filterTagBloomHigh

/-- The bytes of the string literal "libudev" as a `char[8]`: seven
characters and the NUL that fills the array. -/
def libudevPrefix8 : List Nat := [108, 105, 98, 117, 100, 101, 118, 0]

/-! ## Hashing (lines 51-66) -/

/-- The C function `stringHash`; the result is an `unsigned int`. -/
def stringHash (MurmurHash2 : List Nat → Nat → Nat → Nat) (str : List Nat) : Nat :=
  MurmurHash2 str (strlen str) 0 % 4294967296

/-- The body of `bloomHash` after `hash` has been computed (lines 58, 61-65). -/
def bloomBits (hash : Nat) : Nat :=
  let bits := 0
  let bits := bits ||| (1 <<< (hash &&& 63))
  let bits := bits ||| (1 <<< ((hash >>> 6) &&& 63))
  let bits := bits ||| (1 <<< ((hash >>> 12) &&& 63))
  let bits := bits ||| (1 <<< ((hash >>> 18) &&& 63))
  bits

/-- The C function `bloomHash`. -/
def bloomHash (MurmurHash2 : List Nat → Nat → Nat → Nat) (str : List Nat) : Nat :=
  bloomBits (stringHash MurmurHash2 str)

/-! ## The encoder `sendDeviceMessage` (lines 68-135) -/

/-- The variables `buf`, `buflen`, `bufpos` of `sendDeviceMessage`. -/
structure PropBuf where
  buf : List Nat
  buflen : Nat
  bufpos : Nat
  deriving DecidableEq

/-- One iteration of the property loop (lines 109-124).  The `int` variables
are natural numbers: this is the C code as long as `buflen + proplen` is at
most `INT_MAX`. -/
def appendProperty (junk : Nat → Nat) (st : PropBuf) (p : List Nat × List Nat) : PropBuf :=
  let name := p.1
  let val := p.2
  let namelen := strlen name
  let vallen := strlen val
  let proplen := namelen + vallen + 2
  let buf := realloc junk st.buf (st.buflen + proplen)
  let buflen := st.buflen + proplen
  let buf := memcpy buf st.bufpos name namelen
  let bufpos := st.bufpos + namelen
  let buf := buf.set bufpos 61
  let bufpos := bufpos + 1
  let buf := memcpy buf bufpos val vallen
  let bufpos := bufpos + vallen
  let buf := buf.set bufpos 0
  let bufpos := bufpos + 1
  { buf := buf, buflen := buflen, bufpos := bufpos }

/-- The property loop (lines 106-125) followed by the terminator (lines
127-129).  The `int` variables are natural numbers: this is the C code as long
as the final `buflen` is at most `INT_MAX`. -/
def propertyBlob (junk : Nat → Nat) (props : List (List Nat × List Nat)) : PropBuf :=
  let st := props.foldl (appendProperty junk) { buf := [], buflen := 0, bufpos := 0 }
  let buf := realloc junk st.buf (st.buflen + 1)
  let buflen := st.buflen + 1
  let buf := buf.set (buflen - 1) 0
  { buf := buf, buflen := buflen, bufpos := st.bufpos }

/-- The tag loop (lines 97-101). -/
def tagBloom (MurmurHash2 : List Nat → Nat → Nat → Nat) (tags : List (List Nat)) : Nat :=
  tags.foldl (fun tagBits tag => tagBits ||| bloomHash MurmurHash2 tag) 0

/-- What `sendDeviceMessage` hands to `sendmsg`: the destination address, the
header structure behind `iov[0]`, and the `iov_len` bytes behind `iov[1]`. -/
structure msghdr where
  nl_family_netlink : Bool
  nl_pid : Nat
  nl_groups : Nat
  header : MessageHeader
  iov0 : List Nat
  iov1 : List Nat
  deriving DecidableEq

/-- The bytes a `sendmsg` call transmits: the buffers of the iovec in order. -/
def msghdr.wire (m : msghdr) : List Nat := m.iov0 ++ m.iov1

/-- Lines 70-133 of `sendDeviceMessage`: the message built for one device. -/
def deviceMessage (MurmurHash2 : List Nat → Nat → Nat → Nat) (bo : ByteOrder)
    (junk : Nat → Nat) (dev : udev_device) : msghdr :=
  let header : MessageHeader :=
    { pfx := libudevPrefix8
      magic := htonl bo UDEV_MONITOR_MAGIC
      headerSize := sizeofMessageHeader % 4294967296
      propertiesOffset := 0
      propertiesLength := 0
      filterSubsystemHash := 0
      filterDeviceTypeHash := 0
      filterTagBloomLow := 0
      filterTagBloomHigh := 0 }
  let header :=
    match dev.subsystem with
    | some subsys => { header with filterSubsystemHash := htonl bo (stringHash MurmurHash2 subsys) }
    | none => header
  let header :=
    match dev.devtype with
    | some devtype => { header with filterDeviceTypeHash := htonl bo (stringHash MurmurHash2 devtype) }
    | none => header
  let tagBits := tagBloom MurmurHash2 dev.tags
  let header := { header with filterTagBloomLow := htonl bo (tagBits &&& 0xFFFFFFFF) }
  let header := { header with filterTagBloomHigh := htonl bo (tagBits >>> 32) }
  let pb := propertyBlob junk dev.properties
  let header := { header with propertiesOffset := sizeofMessageHeader % 4294967296 }
  let header := { header with propertiesLength := pb.buflen % 4294967296 }
  { nl_family_netlink := true
    nl_pid := 0
    nl_groups := UDEV_MONITOR_UDEV
    header := header
    iov0 := header.bytes bo
    iov1 := pb.buf.take pb.buflen }

/-- One property as the specification words it: `name '=' value NUL`. -/
def expectedProperty (p : List Nat × List Nat) : List Nat :=
  p.1 ++ [61] ++ p.2 ++ [0]

/-- The property blob as the specification words it: the pairs of
`expectedProperty` in list order, then one more NUL. -/
def expectedBlob (props : List (List Nat × List Nat)) : List Nat :=
  (props.map expectedProperty).flatten ++ [0]

/-- The C limit `INT_MAX` of a 32-bit `int`. -/
def INT_MAX : Nat := 2147483647

/-- The four 6-bit slices of a tag hash: bits 0-5, 6-11, 12-17 and 18-23. -/
def bloomSlices (h : Nat) : List Nat :=
  [h &&& 63, (h >>> 6) &&& 63, (h >>> 12) &&& 63, (h >>> 18) &&& 63]

/-- Number of bits set among the 64 bits of an `unsigned long long`. -/
def popCount64 (x : Nat) : Nat :=
  ((List.range 64).filter (fun i => x.testBit i)).length

/-- The four bytes of the wire message that start at byte offset `off`. -/
def fieldAt (wire : List Nat) (off : Nat) : List Nat := (wire.drop off).take 4

/-- A stand-in for `MurmurHash2`, used to evaluate the encoder on examples. -/
def sampleHash : List Nat → Nat → Nat → Nat :=
  fun key len seed => key.foldl (fun acc b => acc * 31 + b) (seed + len)

/-- An example event: subsystem "net", no device type, tag "uevent", property
ACTION=add. -/
def sampleDevice : udev_device :=
  { subsystem := some [110, 101, 116]
    devtype := none
    tags := [[117, 101, 118, 101, 110, 116]]
    properties := [([65, 67, 84, 73, 79, 78], [97, 100, 100])] }

/-! ## A decoder for the property blob (the receiving side, after the
specification: NUL-terminated strings up to the first empty string, each split
at its first '=') -/

/-- The first NUL-terminated string of `bytes` and the bytes after its NUL;
`none` when there is no NUL. -/
def takeCString : List Nat → Option (List Nat × List Nat)
  | [] => none
  | b :: rest =>
    if b = 0 then some ([], rest)
    else (takeCString rest).map (fun r => (b :: r.1, r.2))

/-- The bytes before the first '=' and the bytes after it; `none` when there
is no '='. -/
def splitAtEquals : List Nat → Option (List Nat × List Nat)
  | [] => none
  | b :: rest =>
    if b = 61 then some ([], rest)
    else (splitAtEquals rest).map (fun r => (b :: r.1, r.2))

/-- The decoder with a bound on the number of strings it reads: the decoded
pairs and the bytes left after the terminating empty string. -/
def decodeBlobAux : Nat → List Nat → Option (List (List Nat × List Nat) × List Nat)
  | 0, _ => none
  | fuel + 1, blob =>
    match takeCString blob with
    | none => none
    | some ([], rest) => some ([], rest)
    | some (s, rest) =>
      match splitAtEquals s with
      | none => none
      | some (name, value) =>
        (decodeBlobAux fuel rest).map (fun r => ((name, value) :: r.1, r.2))

/-- The decoder: a blob of `n` bytes holds at most `n` strings. -/
def decodeBlob (blob : List Nat) : Option (List (List Nat × List Nat) × List Nat) :=
  decodeBlobAux blob.length blob

/-! ## Hand-off queue and sender loop (lines 40-49, 137-176, 249-257) -/

/-- The outcomes of the start-up steps: `argc`, the results of `open`,
`epoll_create1`, `udev_monitor_enable_receiving`, `epoll_ctl` and
`pthread_create`, and whether `udev_monitor_new_from_netlink` returned a
monitor. -/
structure StartupOutcomes where
  argc : Int
  open_ret : Int
  monitor_created : Bool
  epoll_create1_ret : Int
  enable_receiving_ret : Int
  epoll_ctl_ret : Int
  pthread_create_ret : Int
  deriving DecidableEq

/-- The diagnostics `main` writes to `stderr`. -/
inductive Diagnostic where
  | usage
  | perror_open
  | failed_to_create_monitor
  | perror_epoll_create1
  | failed_to_enable_receiving
  | perror_epoll_ctl
  | perror_pthread_create
  deriving DecidableEq

/-- What `main` does during start-up, in program order. -/
inductive MainStep where
  | call_open
  | call_udev_new
  | call_udev_monitor_new_from_netlink
  | call_epoll_create1
  | call_udev_monitor_get_fd
  | call_udev_monitor_enable_receiving
  | call_epoll_ctl
  | call_pthread_create
  | stderr (d : Diagnostic)
  deriving DecidableEq

/-- How the start-up ends: `main` returns an exit code, or it enters the
capture loop `for (;;)` of line 232. -/
inductive MainResult where
  | returned (code : Int)
  | captureLoop
  deriving DecidableEq

/-- Lines 186-230 of `main`. -/
def main (o : StartupOutcomes) : List MainStep × MainResult :=
  if o.argc ≠ 2 then
    ([.stderr .usage], .returned 1)
  else
    let t := [MainStep.call_open]
    if o.open_ret < 0 then
      (t ++ [.stderr .perror_open], .returned 1)
    else
      let t := t ++ [.call_udev_new, .call_udev_monitor_new_from_netlink]
      if !o.monitor_created then
        (t ++ [.stderr .failed_to_create_monitor], .returned 1)
      else
        let t := t ++ [.call_epoll_create1]
        if o.epoll_create1_ret < 0 then
          (t ++ [.stderr .perror_epoll_create1], .returned 1)
        else
          let t := t ++ [.call_udev_monitor_get_fd, .call_udev_monitor_enable_receiving]
          let t :=
            if o.enable_receiving_ret ≠ 0 then t ++ [.stderr .failed_to_enable_receiving]
            else t
          let t := t ++ [.call_epoll_ctl]
          if o.epoll_ctl_ret < 0 then
            (t ++ [.stderr .perror_epoll_ctl], .returned 1)
          else
            let t := t ++ [.call_pthread_create]
            if o.pthread_create_ret ≠ 0 then
              (t ++ [.stderr .perror_pthread_create], .returned 1)
            else
              (t, .captureLoop)

theorem set_length_append (l r : List Nat) (x y : Nat) :
    (l ++ x :: r).set l.length y = l ++ y :: r := by
  induction l with
  | nil => rfl
  | cons a l ih => simp [ih]

theorem set_at_append (l m : List Nat) (k : Nat) (hk : k = l.length) (hm : m ≠ []) (y : Nat) :
    (l ++ m).set k y = l ++ y :: m.tail := by
  subst hk
  cases m with
  | nil => exact absurd rfl hm
  | cons x r => exact set_length_append l r x y

theorem memcpy_append (a j src : List Nat) (n : Nat) (hs : n ≤ src.length) (hj : n ≤ j.length) :
    memcpy (a ++ j) a.length src n = a ++ src.take n ++ j.drop n := by
  induction n with
  | zero => simp [memcpy]
  | succ n ih =>
    have hs1 : n < src.length := by omega
    have hj1 : n < j.length := by omega
    rw [memcpy, ih (by omega) (by omega)]
    have hd : j.drop n = j[n] :: j.drop (n + 1) := List.drop_eq_getElem_cons hj1
    have hlen : a.length + n = (a ++ src.take n).length := by
      rw [List.length_append, List.length_take, Nat.min_eq_left (by omega)]
    rw [hd, hlen, set_length_append]
    have ht : src.take (n + 1) = src.take n ++ [src[n]] := by
      rw [List.take_succ, List.getElem?_eq_getElem hs1]; rfl
    have hg : src.getD n 0 = src[n] := by
      rw [List.getD_eq_getElem?_getD, List.getElem?_eq_getElem hs1]; rfl
    rw [ht, hg]
    simp only [List.append_assoc, List.singleton_append]

theorem realloc_grow (junk : Nat → Nat) (b : List Nat) (k : Nat) :
    ∃ j : List Nat, j.length = k ∧ realloc junk b (b.length + k) = b ++ j := by
  refine ⟨(List.range k).map (fun i => junk (b.length + i)), by simp, ?_⟩
  simp [realloc]


theorem appendProperty_exact (junk : Nat → Nat) (b n v : List Nat) :
    appendProperty junk { buf := b, buflen := b.length, bufpos := b.length } (n, v)
      = { buf := b ++ (n ++ [61] ++ v ++ [0]),
          buflen := (b ++ (n ++ [61] ++ v ++ [0])).length,
          bufpos := (b ++ (n ++ [61] ++ v ++ [0])).length } := by
  obtain ⟨j, hjl, hj⟩ := realloc_grow junk b (n.length + v.length + 2)
  have h1 : memcpy (b ++ j) b.length n n.length = b ++ n ++ j.drop n.length := by
    rw [memcpy_append b j n n.length (le_refl _) (by omega), List.take_length]
  have h2 : (b ++ n ++ j.drop n.length).set (b.length + n.length) 61
      = b ++ n ++ [61] ++ j.drop (n.length + 1) := by
    rw [set_at_append (b ++ n) (j.drop n.length) _ (by simp)
      (by intro h; have := congrArg List.length h; simp at this; omega)]
    simp [List.tail_drop]
  have h3 : memcpy (b ++ n ++ [61] ++ j.drop (n.length + 1)) (b.length + n.length + 1) v v.length
      = b ++ n ++ [61] ++ v ++ (j.drop (n.length + 1)).drop v.length := by
    have hl : b.length + n.length + 1 = (b ++ n ++ [61]).length := by simp; omega
    rw [hl, memcpy_append (b ++ n ++ [61]) _ v v.length (le_refl _) (by simp; omega),
      List.take_length]
  have h4 : (b ++ n ++ [61] ++ v ++ (j.drop (n.length + 1)).drop v.length).set
      (b.length + n.length + 1 + v.length) 0 = b ++ n ++ [61] ++ v ++ [0] := by
    rw [set_at_append (b ++ n ++ [61] ++ v) _ _ (by simp; omega)
      (by intro h; have := congrArg List.length h; simp at this; omega)]
    have he : ((j.drop (n.length + 1)).drop v.length).tail = [] := by
      apply List.eq_nil_of_length_eq_zero
      simp; omega
    rw [he]
  simp only [appendProperty, strlen]
  rw [show b.length + (n.length + v.length + 2) = b.length + (n.length + v.length + 2) from rfl,
    hj, h1, h2, h3, h4]
  simp only [List.append_assoc, List.length_append, List.length_cons, List.length_nil,
    List.singleton_append, PropBuf.mk.injEq, true_and]
  omega

theorem foldl_appendProperty (junk : Nat → Nat) (props : List (List Nat × List Nat))
    (b : List Nat) :
    props.foldl (appendProperty junk) { buf := b, buflen := b.length, bufpos := b.length }
      = { buf := b ++ (props.map expectedProperty).flatten,
          buflen := (b ++ (props.map expectedProperty).flatten).length,
          bufpos := (b ++ (props.map expectedProperty).flatten).length } := by
  induction props generalizing b with
  | nil => simp
  | cons p ps ih =>
    obtain ⟨n, v⟩ := p
    rw [List.foldl_cons, appendProperty_exact, ih]
    simp only [List.map_cons, List.flatten_cons, List.append_assoc, expectedProperty]

theorem propertyBlob_exact (junk : Nat → Nat) (props : List (List Nat × List Nat)) :
    propertyBlob junk props
      = { buf := expectedBlob props, buflen := (expectedBlob props).length,
          bufpos := (expectedBlob props).length - 1 } := by
  have h := foldl_appendProperty junk props []
  simp only [List.nil_append, List.length_nil] at h
  obtain ⟨j, hjl, hj⟩ :=
    realloc_grow junk (props.map expectedProperty).flatten 1
  simp only [propertyBlob]
  rw [h]
  simp only [Nat.add_sub_cancel]
  rw [hj, set_at_append _ j _ rfl (by intro h; simp [h] at hjl)]
  have he : j.tail = [] := by
    apply List.eq_nil_of_length_eq_zero
    simp; omega
  rw [he]
  simp [expectedBlob]

/-! ## Bits of the bloom filter -/

theorem testBit_bloomBits (h i : Nat) :
    (bloomBits h).testBit i = decide (i ∈ bloomSlices h) := by
  simp only [bloomBits, bloomSlices, Nat.testBit_or, Nat.one_shiftLeft, Nat.testBit_two_pow,
    Nat.zero_or, List.mem_cons, List.mem_singleton, List.not_mem_nil, or_false]
  by_cases h0 : i = h &&& 63 <;> by_cases h1 : i = (h >>> 6) &&& 63 <;>
    by_cases h2 : i = (h >>> 12) &&& 63 <;> by_cases h3 : i = (h >>> 18) &&& 63 <;>
    simp [h0, h1, h2, h3, eq_comm]

theorem and_63_lt (x : Nat) : x &&& 63 < 64 := by
  have := Nat.and_pow_two_sub_one_eq_mod x 6
  simp only [Nat.reducePow, Nat.add_one_sub_one] at this
  rw [this]
  exact Nat.mod_lt _ (by decide)

theorem bloomSlices_lt (h i : Nat) (hi : i ∈ bloomSlices h) : i < 64 := by
  simp only [bloomSlices, List.mem_cons, List.mem_singleton, List.not_mem_nil, or_false] at hi
  rcases hi with rfl | rfl | rfl | rfl <;> exact and_63_lt _

theorem filter_range_mem_length (l : List Nat) (n : Nat) (hl : ∀ i ∈ l, i < n) :
    ((List.range n).filter (fun i => decide (i ∈ l))).length = l.dedup.length := by
  rw [← List.card_toFinset, ← List.toFinset_card_of_nodup
    ((List.nodup_range n).filter _)]
  congr 1
  ext i
  simp only [List.mem_toFinset, List.mem_filter, List.mem_range, decide_eq_true_eq]
  constructor
  · exact fun hh => hh.2
  · exact fun hh => ⟨hl i hh, hh⟩

theorem popCount64_bloomBits (h : Nat) :
    popCount64 (bloomBits h) = (bloomSlices h).dedup.length := by
  unfold popCount64
  simp only [testBit_bloomBits]
  exact filter_range_mem_length _ 64 (bloomSlices_lt h)

theorem bloomBits_lt (h : Nat) : bloomBits h < 2 ^ 64 := by
  apply Nat.lt_pow_two_of_testBit
  intro i hi
  rw [testBit_bloomBits]
  simp only [decide_eq_false_iff_not]
  intro hm
  have := bloomSlices_lt h i hm
  omega

theorem tagBloom_foldl_testBit (mh : List Nat → Nat → Nat → Nat) (tags : List (List Nat))
    (acc i : Nat) :
    (tags.foldl (fun tagBits tag => tagBits ||| bloomHash mh tag) acc).testBit i = true
      ↔ acc.testBit i = true ∨ ∃ t ∈ tags, (bloomHash mh t).testBit i = true := by
  induction tags generalizing acc with
  | nil => simp
  | cons t ts ih =>
    rw [List.foldl_cons, ih, Nat.testBit_or]
    simp only [Bool.or_eq_true, List.mem_cons, exists_eq_or_imp]
    tauto

theorem tagBloom_testBit (mh : List Nat → Nat → Nat → Nat) (tags : List (List Nat)) (i : Nat) :
    (tagBloom mh tags).testBit i = true ↔ ∃ t ∈ tags, (bloomHash mh t).testBit i = true := by
  unfold tagBloom
  rw [tagBloom_foldl_testBit]
  simp

theorem tagBloom_lt (mh : List Nat → Nat → Nat → Nat) (tags : List (List Nat)) :
    tagBloom mh tags < 2 ^ 64 := by
  apply Nat.lt_pow_two_of_testBit
  intro i hi
  cases hb : (tagBloom mh tags).testBit i with
  | false => rfl
  | true =>
    obtain ⟨t, _, ht⟩ := (tagBloom_testBit mh tags i).1 hb
    have hlt := bloomBits_lt (stringHash mh t)
    have := Nat.testBit_lt_two_pow (Nat.lt_of_lt_of_le hlt (Nat.pow_le_pow_right (by decide) hi))
    unfold bloomHash at ht
    rw [this] at ht
    exact absurd ht (by decide)

theorem tagBloom_eq_foldr (mh : List Nat → Nat → Nat → Nat) (tags : List (List Nat)) :
    tagBloom mh tags = (tags.map (bloomHash mh)).foldr (fun b acc => b ||| acc) 0 := by
  apply Nat.eq_of_testBit_eq
  intro i
  rw [Bool.eq_iff_iff, tagBloom_testBit]
  induction tags with
  | nil => simp
  | cons t ts ih =>
    simp only [List.mem_cons, exists_eq_or_imp, List.map_cons, List.foldr_cons, Nat.testBit_or,
      Bool.or_eq_true, ih]

/-! ## Byte order -/

theorem bytesLE_compose (a b c d : Nat) (ha : a < 256) (hb : b < 256) (hc : c < 256)
    (hd : d < 256) : bytesLE (a * 16777216 + b * 65536 + c * 256 + d) = [d, c, b, a] := by
  simp only [bytesLE, List.cons.injEq, and_true]
  refine ⟨?_, ?_, ?_, ?_⟩ <;> omega

theorem bytesLE_bswap32 (x : Nat) : bytesLE (bswap32 x) = bytesBE x := by
  unfold bswap32
  rw [bytesLE_compose _ _ _ _ (Nat.mod_lt _ (by decide)) (Nat.mod_lt _ (by decide))
    (Nat.mod_lt _ (by decide)) (Nat.mod_lt _ (by decide))]
  rfl

theorem bytesBE_mod (x : Nat) : bytesBE (x % 4294967296) = bytesBE x := by
  simp only [bytesBE, List.cons.injEq, and_true]
  refine ⟨?_, ?_, ?_, ?_⟩ <;> omega

theorem storeU32_htonl (bo : ByteOrder) (x : Nat) : storeU32 bo (htonl bo x) = bytesBE x := by
  cases bo
  · simp only [storeU32, htonl, bytesLE_bswap32, bytesBE_mod]
  · simp only [storeU32, htonl, bytesBE_mod]

theorem readBE_bytesBE (x : Nat) : readBE (bytesBE x) = x % 4294967296 := by
  simp only [readBE, bytesBE, List.getD_cons_zero, List.getD_cons_succ]
  omega

theorem readLE_bytesLE (x : Nat) : readLE (bytesLE x) = x % 4294967296 := by
  simp only [readLE, bytesLE, List.getD_cons_zero, List.getD_cons_succ]
  omega

theorem loadU32_storeU32 (bo : ByteOrder) (x : Nat) :
    loadU32 bo (storeU32 bo x) = x % 4294967296 := by
  cases bo
  · exact readLE_bytesLE x
  · exact readBE_bytesBE x

theorem stringHash_lt (mh : List Nat → Nat → Nat → Nat) (s : List Nat) :
    stringHash mh s < 4294967296 := Nat.mod_lt _ (by decide)

/-! ## Layout of the message -/

/-- The header of the message, field by field. -/
theorem deviceMessage_header (mh : List Nat → Nat → Nat → Nat) (bo : ByteOrder)
    (junk : Nat → Nat) (dev : udev_device) :
    (deviceMessage mh bo junk dev).header =
      { pfx := libudevPrefix8
        magic := htonl bo UDEV_MONITOR_MAGIC
        headerSize := 40
        propertiesOffset := 40
        propertiesLength := (expectedBlob dev.properties).length % 4294967296
        filterSubsystemHash :=
          htonl bo (match dev.subsystem with | some s => stringHash mh s | none => 0)
        filterDeviceTypeHash :=
          htonl bo (match dev.devtype with | some d => stringHash mh d | none => 0)
        filterTagBloomLow := htonl bo (tagBloom mh dev.tags % 4294967296)
        filterTagBloomHigh := htonl bo (tagBloom mh dev.tags / 4294967296) } := by
  have hz : htonl bo 0 = 0 := by cases bo <;> rfl
  have hand : tagBloom mh dev.tags &&& 0xFFFFFFFF = tagBloom mh dev.tags % 4294967296 :=
    Nat.and_pow_two_sub_one_eq_mod _ 32
  have hshift : tagBloom mh dev.tags >>> 32 = tagBloom mh dev.tags / 4294967296 :=
    Nat.shiftRight_eq_div_pow _ 32
  simp only [deviceMessage, propertyBlob_exact, hand, hshift, sizeofMessageHeader]
  cases dev.subsystem <;> cases dev.devtype <;> simp [hz]

/-- The transmitted bytes, field by field. -/
theorem deviceMessage_wire (mh : List Nat → Nat → Nat → Nat) (bo : ByteOrder)
    (junk : Nat → Nat) (dev : udev_device) :
    (deviceMessage mh bo junk dev).wire =
      libudevPrefix8 ++ bytesBE UDEV_MONITOR_MAGIC ++ storeU32 bo 40 ++ storeU32 bo 40
        ++ storeU32 bo ((expectedBlob dev.properties).length % 4294967296)
        ++ bytesBE (match dev.subsystem with | some s => stringHash mh s | none => 0)
        ++ bytesBE (match dev.devtype with | some d => stringHash mh d | none => 0)
        ++ bytesBE (tagBloom mh dev.tags % 4294967296)
        ++ bytesBE (tagBloom mh dev.tags / 4294967296)
        ++ expectedBlob dev.properties := by
  have hh := deviceMessage_header mh bo junk dev
  have h0 : (deviceMessage mh bo junk dev).iov0 = (deviceMessage mh bo junk dev).header.bytes bo :=
    rfl
  have h1 : (deviceMessage mh bo junk dev).iov1 = expectedBlob dev.properties := by
    simp only [deviceMessage, propertyBlob_exact, List.take_length]
  rw [msghdr.wire, h0, h1, hh]
  simp only [MessageHeader.bytes, storeU32_htonl]

/-- The fields of the transmitted bytes at their offsets. -/
theorem deviceMessage_fields (mh : List Nat → Nat → Nat → Nat) (bo : ByteOrder)
    (junk : Nat → Nat) (dev : udev_device) :
    ((deviceMessage mh bo junk dev).wire.take 8 = libudevPrefix8
      ∧ fieldAt (deviceMessage mh bo junk dev).wire 8 = bytesBE UDEV_MONITOR_MAGIC
      ∧ fieldAt (deviceMessage mh bo junk dev).wire 12 = storeU32 bo 40
      ∧ fieldAt (deviceMessage mh bo junk dev).wire 16 = storeU32 bo 40
      ∧ fieldAt (deviceMessage mh bo junk dev).wire 20
          = storeU32 bo ((expectedBlob dev.properties).length % 4294967296))
    ∧ (fieldAt (deviceMessage mh bo junk dev).wire 24
          = bytesBE (match dev.subsystem with | some s => stringHash mh s | none => 0)
      ∧ fieldAt (deviceMessage mh bo junk dev).wire 28
          = bytesBE (match dev.devtype with | some d => stringHash mh d | none => 0)
      ∧ fieldAt (deviceMessage mh bo junk dev).wire 32
          = bytesBE (tagBloom mh dev.tags % 4294967296)
      ∧ fieldAt (deviceMessage mh bo junk dev).wire 36
          = bytesBE (tagBloom mh dev.tags / 4294967296)
      ∧ (deviceMessage mh bo junk dev).wire.drop 40 = expectedBlob dev.properties) := by
  rw [deviceMessage_wire]
  cases bo <;> refine ⟨⟨rfl, rfl, rfl, rfl, rfl⟩, rfl, rfl, rfl, rfl, rfl⟩

theorem expectedBlob_length (props : List (List Nat × List Nat)) :
    (expectedBlob props).length
      = 1 + (props.map (fun p => p.1.length + p.2.length + 2)).sum := by
  induction props with
  | nil => rfl
  | cons p ps ih =>
    simp only [expectedBlob, List.map_cons, List.flatten_cons, List.length_append,
      List.length_cons, List.length_nil, List.sum_cons, expectedProperty] at ih ⊢
    omega

/-! ## The encoder: property blob, header and byte order -/

/-- C1: for every device event whose property blob fits the `int` counter
`buflen` (at most `INT_MAX` bytes), the property blob that `sendDeviceMessage`
puts behind `iov[1]` is exactly `name '=' value NUL` for each property, in
iteration order, followed by one more NUL and nothing else; it also is what
follows the 40 header bytes on the wire, and the counter `buflen` ends as its
length, within the range of `int`.  For the single property ACTION=add the
blob is `ACTION=add\0\0`, for an empty property list it is the single byte
NUL. -/
theorem C1_property_blob_exact (mh : List Nat → Nat → Nat → Nat) (bo : ByteOrder)
    (junk : Nat → Nat) (dev : udev_device)
    (hfit : 1 + (dev.properties.map (fun p => strlen p.1 + strlen p.2 + 2)).sum ≤ INT_MAX) :
    (deviceMessage mh bo junk dev).iov1 = expectedBlob dev.properties
    ∧ (propertyBlob junk dev.properties).buflen = (expectedBlob dev.properties).length
    ∧ (propertyBlob junk dev.properties).buflen ≤ INT_MAX
    ∧ (propertyBlob junk dev.properties).buf = expectedBlob dev.properties
    ∧ (deviceMessage mh bo junk dev).wire.drop 40 = expectedBlob dev.properties
    ∧ (∀ s d t, (deviceMessage mh bo junk
          { subsystem := s, devtype := d, tags := t,
            properties := [([65, 67, 84, 73, 79, 78], [97, 100, 100])] }).iov1
        = [65, 67, 84, 73, 79, 78, 61, 97, 100, 100, 0, 0])
    ∧ (∀ s d t, (deviceMessage mh bo junk
          { subsystem := s, devtype := d, tags := t, properties := [] }).iov1 = [0]) := by
  have hiov : ∀ dv : udev_device,
      (deviceMessage mh bo junk dv).iov1 = expectedBlob dv.properties := by
    intro dv
    simp only [deviceMessage, propertyBlob_exact, List.take_length]
  refine ⟨hiov dev, ?_, ?_, ?_, (deviceMessage_fields mh bo junk dev).2.2.2.2.2, ?_, ?_⟩
  · rw [propertyBlob_exact]
  · rw [propertyBlob_exact]
    show (expectedBlob dev.properties).length ≤ INT_MAX
    rw [expectedBlob_length]
    exact hfit
  · rw [propertyBlob_exact]
  · intro s d t
    rw [hiov]
    rfl
  · intro s d t
    rw [hiov]
    rfl

/-- The witness of C1: the example event (ACTION=add) has a blob of 12 bytes,
`ACTION=add\0\0`. -/
theorem C1_property_blob_exact_witness :
    1 + (sampleDevice.properties.map (fun p => strlen p.1 + strlen p.2 + 2)).sum ≤ INT_MAX
    ∧ (deviceMessage sampleHash .littleEndian (fun _ => 170) sampleDevice).iov1
        = expectedBlob sampleDevice.properties
    ∧ expectedBlob sampleDevice.properties
        = [65, 67, 84, 73, 79, 78, 61, 97, 100, 100, 0, 0] :=
  ⟨by decide,
   (C1_property_blob_exact sampleHash .littleEndian (fun _ => 170) sampleDevice
      (by decide)).1,
   by decide⟩

/-- C2: for every device event whose property blob fits the `int` counter
`buflen`, the message handed to `sendmsg` is the 40-byte header (the 8 bytes
"libudev" NUL-padded, then eight 4-byte fields) immediately followed by the
property blob; the header records headerSize = 40, propertiesOffset = 40 and
propertiesLength = the byte length of the blob, which is
1 + the sum over the properties of (length of name + length of value + 2). -/
theorem C2_header_then_blob (mh : List Nat → Nat → Nat → Nat) (bo : ByteOrder)
    (junk : Nat → Nat) (dev : udev_device)
    (hfit : 1 + (dev.properties.map (fun p => strlen p.1 + strlen p.2 + 2)).sum ≤ INT_MAX) :
    (deviceMessage mh bo junk dev).wire
        = (deviceMessage mh bo junk dev).header.bytes bo ++ (deviceMessage mh bo junk dev).iov1
    ∧ ((deviceMessage mh bo junk dev).header.bytes bo).length = 40
    ∧ (deviceMessage mh bo junk dev).wire.take 8 = [108, 105, 98, 117, 100, 101, 118, 0]
    ∧ (deviceMessage mh bo junk dev).wire.drop 40 = expectedBlob dev.properties
    ∧ (deviceMessage mh bo junk dev).header.headerSize = 40
    ∧ (deviceMessage mh bo junk dev).header.propertiesOffset = 40
    ∧ (deviceMessage mh bo junk dev).header.propertiesLength
        = ((deviceMessage mh bo junk dev).iov1).length
    ∧ (deviceMessage mh bo junk dev).header.propertiesLength
        = 1 + (dev.properties.map (fun p => strlen p.1 + strlen p.2 + 2)).sum
    ∧ loadU32 bo (fieldAt (deviceMessage mh bo junk dev).wire 12) = 40
    ∧ loadU32 bo (fieldAt (deviceMessage mh bo junk dev).wire 16) = 40
    ∧ loadU32 bo (fieldAt (deviceMessage mh bo junk dev).wire 20)
        = 1 + (dev.properties.map (fun p => strlen p.1 + strlen p.2 + 2)).sum := by
  have hlen := expectedBlob_length dev.properties
  simp only [strlen, INT_MAX] at hfit ⊢
  have hmod : (expectedBlob dev.properties).length % 4294967296
      = (expectedBlob dev.properties).length := Nat.mod_eq_of_lt (by omega)
  have hiov : (deviceMessage mh bo junk dev).iov1 = expectedBlob dev.properties := by
    simp only [deviceMessage, propertyBlob_exact, List.take_length]
  obtain ⟨⟨f0, _, f12, f16, f20⟩, _, _, _, _, f40⟩ := deviceMessage_fields mh bo junk dev
  have hh := deviceMessage_header mh bo junk dev
  refine ⟨rfl, ?_, f0, f40, ?_, ?_, ?_, ?_, ?_, ?_, ?_⟩
  · rw [hh]
    cases bo <;> rfl
  · rw [hh]
  · rw [hh]
  · rw [hh, hiov]
    exact hmod
  · rw [hh]
    show (expectedBlob dev.properties).length % 4294967296 = _
    rw [hmod, hlen]
  · rw [f12, loadU32_storeU32]
  · rw [f16, loadU32_storeU32]
  · rw [f20, loadU32_storeU32, hmod, hmod, hlen]

/-- The witness of C2: the example event (ACTION=add) has a blob of 12 bytes. -/
theorem C2_header_then_blob_witness :
    1 + (sampleDevice.properties.map (fun p => strlen p.1 + strlen p.2 + 2)).sum ≤ INT_MAX
    ∧ (deviceMessage sampleHash .littleEndian (fun _ => 170) sampleDevice).header.propertiesLength
        = 12
    ∧ (deviceMessage sampleHash .littleEndian (fun _ => 170) sampleDevice).wire.drop 40
        = [65, 67, 84, 73, 79, 78, 61, 97, 100, 100, 0, 0] :=
  ⟨by decide,
   (C2_header_then_blob sampleHash .littleEndian (fun _ => 170) sampleDevice
      (by decide)).2.2.2.2.2.2.2.1,
   (C2_header_then_blob sampleHash .littleEndian (fun _ => 170) sampleDevice
      (by decide)).2.2.2.1⟩

/-- C3: for every device event the subsystem hash field of the encoded header
(bytes 24-27), read as a network-byte-order 32-bit integer, is `stringHash S`
when the event has subsystem name `S` and zero when it has none; the
device-type hash field (bytes 28-31) likewise is `stringHash D` or zero.
`stringHash` is `MurmurHash2` with seed 0 over the bytes of the name. -/
theorem C3_name_hash_fields (mh : List Nat → Nat → Nat → Nat) (bo : ByteOrder)
    (junk : Nat → Nat) (dev : udev_device) :
    readBE (fieldAt (deviceMessage mh bo junk dev).wire 24)
        = (match dev.subsystem with | some S => stringHash mh S | none => 0)
    ∧ readBE (fieldAt (deviceMessage mh bo junk dev).wire 28)
        = (match dev.devtype with | some D => stringHash mh D | none => 0)
    ∧ (deviceMessage mh bo junk dev).header.filterSubsystemHash
        = htonl bo (match dev.subsystem with | some S => stringHash mh S | none => 0)
    ∧ (deviceMessage mh bo junk dev).header.filterDeviceTypeHash
        = htonl bo (match dev.devtype with | some D => stringHash mh D | none => 0)
    ∧ ∀ name : List Nat, stringHash mh name = mh name name.length 0 % 2 ^ 32 := by
  obtain ⟨_, f24, f28, _, _, _⟩ := deviceMessage_fields mh bo junk dev
  have hh := deviceMessage_header mh bo junk dev
  refine ⟨?_, ?_, ?_, ?_, fun _ => rfl⟩
  · rw [f24, readBE_bytesBE]
    cases dev.subsystem with
    | none => rfl
    | some S => exact Nat.mod_eq_of_lt (stringHash_lt mh S)
  · rw [f28, readBE_bytesBE]
    cases dev.devtype with
    | none => rfl
    | some D => exact Nat.mod_eq_of_lt (stringHash_lt mh D)
  · rw [hh]
  · rw [hh]

/-- C4: for every tag list the 64-bit tag filter computed by
`sendDeviceMessage` is the bitwise OR of `bloomHash t` over the tags `t`, where
`bloomHash t` has set exactly the bits at the four 6-bit slices of
`stringHash t`; the header field filterTagBloomLow (bytes 32-35) holds the low
32 bits and filterTagBloomHigh (bytes 36-39) the high 32 bits, each in network
byte order, so that high * 2^32 + low is the filter; without tags the filter
is zero. -/
theorem C4_tag_bloom_filter (mh : List Nat → Nat → Nat → Nat) (bo : ByteOrder)
    (junk : Nat → Nat) (dev : udev_device) :
    tagBloom mh dev.tags = (dev.tags.map (bloomHash mh)).foldr (fun b acc => b ||| acc) 0
    ∧ (∀ i, (tagBloom mh dev.tags).testBit i = true
        ↔ ∃ t ∈ dev.tags, (bloomHash mh t).testBit i = true)
    ∧ (∀ t i, (bloomHash mh t).testBit i = true
        ↔ (i = stringHash mh t &&& 63 ∨ i = (stringHash mh t >>> 6) &&& 63
            ∨ i = (stringHash mh t >>> 12) &&& 63 ∨ i = (stringHash mh t >>> 18) &&& 63))
    ∧ readBE (fieldAt (deviceMessage mh bo junk dev).wire 32)
        = tagBloom mh dev.tags % 2 ^ 32
    ∧ readBE (fieldAt (deviceMessage mh bo junk dev).wire 36)
        = tagBloom mh dev.tags / 2 ^ 32
    ∧ readBE (fieldAt (deviceMessage mh bo junk dev).wire 36) * 2 ^ 32
        + readBE (fieldAt (deviceMessage mh bo junk dev).wire 32) = tagBloom mh dev.tags
    ∧ tagBloom mh [] = 0 := by
  obtain ⟨_, _, _, f32, f36, _⟩ := deviceMessage_fields mh bo junk dev
  have hlt : tagBloom mh dev.tags < 18446744073709551616 := tagBloom_lt mh dev.tags
  have hlow : readBE (fieldAt (deviceMessage mh bo junk dev).wire 32)
      = tagBloom mh dev.tags % 4294967296 := by
    rw [f32, readBE_bytesBE]
    omega
  have hhigh : readBE (fieldAt (deviceMessage mh bo junk dev).wire 36)
      = tagBloom mh dev.tags / 4294967296 := by
    rw [f36, readBE_bytesBE]
    omega
  refine ⟨tagBloom_eq_foldr mh dev.tags, tagBloom_testBit mh dev.tags, ?_, hlow, hhigh, ?_, rfl⟩
  · intro t i
    unfold bloomHash
    rw [testBit_bloomBits]
    simp [bloomSlices]
  · rw [hlow, hhigh]
    norm_num
    omega

/-- C5 as stated fails: on a little-endian host the headerSize bytes of the
example event are 28 00 00 00, not the network-order 00 00 00 28, and likewise
propertiesOffset and propertiesLength are in host order. -/
theorem C5_host_order_counterexample :
    fieldAt (deviceMessage sampleHash .littleEndian (fun _ => 170) sampleDevice).wire 12
        = [0x28, 0, 0, 0]
    ∧ fieldAt (deviceMessage sampleHash .littleEndian (fun _ => 170) sampleDevice).wire 12
        ≠ bytesBE 0x28
    ∧ fieldAt (deviceMessage sampleHash .littleEndian (fun _ => 170) sampleDevice).wire 16
        ≠ bytesBE 0x28
    ∧ fieldAt (deviceMessage sampleHash .littleEndian (fun _ => 170) sampleDevice).wire 20
        ≠ bytesBE 12 := by
  decide

/-- C5 (amended): for every device event and on every host byte order the five
fields passed through `htonl` (magic, filterSubsystemHash,
filterDeviceTypeHash, filterTagBloomLow, filterTagBloomHigh) are laid out in
network byte order, the magic bytes being FE ED CA FE; the three fields
assigned without `htonl` (headerSize, propertiesOffset, propertiesLength) are
laid out in host byte order, so the headerSize bytes are 00 00 00 28 on a
big-endian host and 28 00 00 00 on a little-endian host. -/
theorem C5_byte_order_of_fields (mh : List Nat → Nat → Nat → Nat) (bo : ByteOrder)
    (junk : Nat → Nat) (dev : udev_device) :
    fieldAt (deviceMessage mh bo junk dev).wire 8 = [0xFE, 0xED, 0xCA, 0xFE]
    ∧ fieldAt (deviceMessage mh bo junk dev).wire 24
        = bytesBE (match dev.subsystem with | some S => stringHash mh S | none => 0)
    ∧ fieldAt (deviceMessage mh bo junk dev).wire 28
        = bytesBE (match dev.devtype with | some D => stringHash mh D | none => 0)
    ∧ fieldAt (deviceMessage mh bo junk dev).wire 32 = bytesBE (tagBloom mh dev.tags % 2 ^ 32)
    ∧ fieldAt (deviceMessage mh bo junk dev).wire 36 = bytesBE (tagBloom mh dev.tags / 2 ^ 32)
    ∧ fieldAt (deviceMessage mh bo junk dev).wire 12 = storeU32 bo 40
    ∧ fieldAt (deviceMessage mh bo junk dev).wire 16 = storeU32 bo 40
    ∧ fieldAt (deviceMessage mh bo junk dev).wire 20
        = storeU32 bo ((deviceMessage mh bo junk dev).iov1.length % 2 ^ 32)
    ∧ fieldAt (deviceMessage mh .bigEndian junk dev).wire 12 = [0, 0, 0, 0x28]
    ∧ fieldAt (deviceMessage mh .littleEndian junk dev).wire 12 = [0x28, 0, 0, 0]
    ∧ fieldAt (deviceMessage mh .bigEndian junk dev).wire 16 = [0, 0, 0, 0x28]
    ∧ fieldAt (deviceMessage mh .littleEndian junk dev).wire 16 = [0x28, 0, 0, 0] := by
  obtain ⟨⟨_, f8, f12, f16, f20⟩, f24, f28, f32, f36, _⟩ := deviceMessage_fields mh bo junk dev
  have hiov : (deviceMessage mh bo junk dev).iov1 = expectedBlob dev.properties := by
    simp only [deviceMessage, propertyBlob_exact, List.take_length]
  refine ⟨?_, f24, f28, f32, f36, f12, f16, ?_, ?_, ?_, ?_, ?_⟩
  · rw [f8]
    decide
  · rw [f20, hiov]
    norm_num
  · rw [(deviceMessage_fields mh .bigEndian junk dev).1.2.2.1]
    decide
  · rw [(deviceMessage_fields mh .littleEndian junk dev).1.2.2.1]
    decide
  · rw [(deviceMessage_fields mh .bigEndian junk dev).1.2.2.2.1]
    decide
  · rw [(deviceMessage_fields mh .littleEndian junk dev).1.2.2.2.1]
    decide

/-- C10: for every hash value `h` the number of bits set in the 64-bit result
of `bloomHash` is the number of distinct values among the four 6-bit slices of
`h`; it is between 1 and 4, it is 1 when the four slices coincide and 4 when
they are pairwise distinct; the filter of an event with a single tag is the
`bloomHash` of that tag. -/
theorem C10_bloom_bit_count (h : Nat) :
    popCount64 (bloomBits h) = (bloomSlices h).dedup.length
    ∧ 1 ≤ popCount64 (bloomBits h) ∧ popCount64 (bloomBits h) ≤ 4
    ∧ ((∀ s ∈ bloomSlices h, s = h &&& 63) → popCount64 (bloomBits h) = 1)
    ∧ ((bloomSlices h).Nodup → popCount64 (bloomBits h) = 4)
    ∧ (∀ (mh : List Nat → Nat → Nat → Nat) (t : List Nat),
        tagBloom mh [t] = bloomBits (stringHash mh t)
        ∧ popCount64 (tagBloom mh [t]) = (bloomSlices (stringHash mh t)).dedup.length) := by
  have hp := popCount64_bloomBits h
  have hle : (bloomSlices h).dedup.length ≤ 4 :=
    (List.dedup_sublist (bloomSlices h)).length_le
  have hpos : 1 ≤ (bloomSlices h).dedup.length := by
    have hm : h &&& 63 ∈ (bloomSlices h).dedup := by
      rw [List.mem_dedup]
      simp [bloomSlices]
    exact List.length_pos_of_mem hm
  refine ⟨hp, hp ▸ hpos, hp ▸ hle, ?_, ?_, ?_⟩
  · intro hall
    rw [hp]
    have hsub : (bloomSlices h).dedup ⊆ [h &&& 63] := by
      intro s hs
      rw [List.mem_dedup] at hs
      simp [hall s hs]
    have := List.Subperm.length_le
      ((List.nodup_dedup (bloomSlices h)).subperm hsub)
    simp only [List.length_singleton] at this
    omega
  · intro hnd
    rw [hp, hnd.dedup]
    rfl
  · intro mh t
    have ht : tagBloom mh [t] = bloomBits (stringHash mh t) := by
      simp [tagBloom, bloomHash]
    exact ⟨ht, ht ▸ popCount64_bloomBits _⟩

/-- The witness of C10: hash 0 has four equal slices and sets one bit; hash
794688 has the slices 0, 1, 2, 3 and sets four bits. -/
theorem C10_bloom_bit_count_witness :
    ((∀ s ∈ bloomSlices 0, s = 0 &&& 63) ∧ popCount64 (bloomBits 0) = 1)
    ∧ ((bloomSlices 794688).Nodup ∧ popCount64 (bloomBits 794688) = 4) :=
  ⟨⟨by decide, (C10_bloom_bit_count 0).2.2.2.1 (by decide)⟩,
   ⟨by decide, (C10_bloom_bit_count 794688).2.2.2.2.1 (by decide)⟩⟩

/-! ## Decoding the property blob -/

theorem takeCString_append (s rest : List Nat) (hs : 0 ∉ s) :
    takeCString (s ++ 0 :: rest) = some (s, rest) := by
  induction s with
  | nil => simp [takeCString]
  | cons b s ih =>
    have hb : b ≠ 0 := fun h => hs (by simp [h])
    have hs1 : 0 ∉ s := fun h => hs (List.mem_cons_of_mem _ h)
    simp [takeCString, hb, ih hs1]

theorem splitAtEquals_append (n v : List Nat) (hn : 61 ∉ n) :
    splitAtEquals (n ++ 61 :: v) = some (n, v) := by
  induction n with
  | nil => simp [splitAtEquals]
  | cons b n ih =>
    have hb : b ≠ 61 := fun h => hn (by simp [h])
    have hn1 : 61 ∉ n := fun h => hn (List.mem_cons_of_mem _ h)
    simp [splitAtEquals, hb, ih hn1]

theorem expectedBlob_cons (p : List Nat × List Nat) (ps : List (List Nat × List Nat)) :
    expectedBlob (p :: ps) = (p.1 ++ 61 :: p.2) ++ 0 :: expectedBlob ps := by
  simp [expectedBlob, expectedProperty]

theorem decodeBlobAux_expectedBlob (props : List (List Nat × List Nat))
    (hwf : ∀ p ∈ props, 61 ∉ p.1 ∧ 0 ∉ p.1 ∧ 0 ∉ p.2) (fuel : Nat)
    (hfuel : props.length < fuel) :
    decodeBlobAux fuel (expectedBlob props) = some (props, []) := by
  induction props generalizing fuel with
  | nil =>
    obtain ⟨f, rfl⟩ : ∃ f, fuel = f + 1 := ⟨fuel - 1, by simp at hfuel; omega⟩
    simp [decodeBlobAux, expectedBlob, takeCString]
  | cons p ps ih =>
    obtain ⟨f, rfl⟩ : ∃ f, fuel = f + 1 := ⟨fuel - 1, by simp at hfuel; omega⟩
    obtain ⟨h61, h0n, h0v⟩ := hwf p (List.mem_cons_self _ _)
    have hs : 0 ∉ p.1 ++ 61 :: p.2 := by
      simp only [List.mem_append, List.mem_cons, not_or]
      exact ⟨h0n, by decide, h0v⟩
    have ihps := ih (fun q hq => hwf q (List.mem_cons_of_mem _ hq)) f
      (by simp at hfuel; omega)
    rw [expectedBlob_cons, decodeBlobAux, takeCString_append _ _ hs]
    cases hnv : p.1 ++ 61 :: p.2 with
    | nil => simp at hnv
    | cons c cs =>
      simp only
      rw [← hnv, splitAtEquals_append _ _ h61]
      simp only [ihps, Option.map_some']

theorem length_le_expectedBlob (props : List (List Nat × List Nat)) :
    props.length < (expectedBlob props).length := by
  rw [expectedBlob_length]
  induction props with
  | nil => simp
  | cons p ps ih => simp only [List.map_cons, List.sum_cons, List.length_cons]; omega

/-- C6 as stated fails: the property named `a=b` with value `c` is encoded as
`a=b=c\0\0`, and splitting at the first '=' gives the name `a` and the value
`b=c`, not the pair supplied. -/
theorem C6_roundtrip_counterexample :
    decodeBlob (deviceMessage sampleHash .littleEndian (fun _ => 170)
        { subsystem := none, devtype := none, tags := [],
          properties := [([97, 61, 98], [99])] }).iov1
      = some ([([97], [98, 61, 99])], [])
    ∧ decodeBlob (deviceMessage sampleHash .littleEndian (fun _ => 170)
        { subsystem := none, devtype := none, tags := [],
          properties := [([97, 61, 98], [99])] }).iov1
      ≠ some ([([97, 61, 98], [99])], []) := by
  decide

/-- C6 (amended): for every ordered list of (name, value) property pairs in
which no name contains '=' (names and values being C strings, without NUL)
and whose property blob fits the `int` counter `buflen` (at most `INT_MAX`
bytes), decoding the property blob produced by `sendDeviceMessage` recovers
exactly the supplied pairs in the supplied order, and the decoder stops at the
terminating empty string with no bytes of the blob left over; the blob decoded
is at most `INT_MAX` bytes long. -/
theorem C6_roundtrip (mh : List Nat → Nat → Nat → Nat) (bo : ByteOrder)
    (junk : Nat → Nat) (dev : udev_device)
    (hwf : ∀ p ∈ dev.properties, 61 ∉ p.1 ∧ 0 ∉ p.1 ∧ 0 ∉ p.2)
    (hfit : 1 + (dev.properties.map (fun p => strlen p.1 + strlen p.2 + 2)).sum ≤ INT_MAX) :
    decodeBlob (deviceMessage mh bo junk dev).iov1 = some (dev.properties, [])
    ∧ (deviceMessage mh bo junk dev).iov1.length ≤ INT_MAX := by
  have hiov : (deviceMessage mh bo junk dev).iov1 = expectedBlob dev.properties := by
    simp only [deviceMessage, propertyBlob_exact, List.take_length]
  rw [hiov, decodeBlob]
  refine ⟨decodeBlobAux_expectedBlob _ hwf _ (length_le_expectedBlob _), ?_⟩
  rw [expectedBlob_length]
  exact hfit

/-- The witness of C6: the example event with the property ACTION=add. -/
theorem C6_roundtrip_witness :
    (∀ p ∈ sampleDevice.properties, 61 ∉ p.1 ∧ 0 ∉ p.1 ∧ 0 ∉ p.2)
    ∧ 1 + (sampleDevice.properties.map (fun p => strlen p.1 + strlen p.2 + 2)).sum ≤ INT_MAX
    ∧ decodeBlob (deviceMessage sampleHash .bigEndian (fun _ => 170) sampleDevice).iov1
        = some ([([65, 67, 84, 73, 79, 78], [97, 100, 100])], []) :=
  ⟨by decide, by decide,
   (C6_roundtrip sampleHash .bigEndian (fun _ => 170) sampleDevice (by decide)
      (by decide)).1⟩

/-! ## Hand-off queue and sender loop -/

/-- The fatal start-up steps: when the argument count is wrong, or `open`,
the monitor construction, `epoll_create1`, `epoll_ctl` or `pthread_create`
fails, `main` returns 1 and the last thing it did is to write a diagnostic. -/
theorem main_fatal_steps (o : StartupOutcomes)
    (h : o.argc ≠ 2 ∨ o.open_ret < 0 ∨ o.monitor_created = false ∨ o.epoll_create1_ret < 0
      ∨ o.epoll_ctl_ret < 0 ∨ o.pthread_create_ret ≠ 0) :
    (main o).2 = .returned 1 ∧ ∃ d, (main o).1.getLast? = some (.stderr d) := by
  unfold main
  split_ifs <;> simp_all

/-- When `open` fails, `main` calls nothing after it: the worker is not spawned
and the capture loop is not entered. -/
theorem main_open_failure (o : StartupOutcomes) (hargc : o.argc = 2) (hopen : o.open_ret < 0) :
    main o = ([.call_open, .stderr .perror_open], .returned 1) := by
  simp [main, hargc, hopen]

/-- C9 fails on the code at the step "enabling receiving": when every other
step succeeds and `udev_monitor_enable_receiving` fails (returns -1), `main`
writes the diagnostic but does not return; it goes on to `epoll_ctl` and
`pthread_create` and enters the capture loop. -/
theorem C9_enable_receiving_failure_continues :
    main { argc := 2, open_ret := 3, monitor_created := true, epoll_create1_ret := 4,
           enable_receiving_ret := -1, epoll_ctl_ret := 0, pthread_create_ret := 0 }
      = ([.call_open, .call_udev_new, .call_udev_monitor_new_from_netlink,
          .call_epoll_create1, .call_udev_monitor_get_fd,
          .call_udev_monitor_enable_receiving, .stderr .failed_to_enable_receiving,
          .call_epoll_ctl, .call_pthread_create], .captureLoop) := by
  decide

end Udevfw
